import Mathlib

/-!
Verification of the status-reconciliation and scheduling-backstop core of the
Leo-Automation repository.  The definitions below are a shallow embedding of
the relevant Python code: the reconciled scheduled view (`get_jobs` in
src/app/api/videos.py), the single-job status view (GET /jobs/{job_id}), the
sync endpoint (POST /jobs/sync), the JSON job store
(src/app/storage/storage_manager.py) and the backstop timer body
(src/app/scheduler/job_manager.py).

Modelling conventions:
- JSON dicts become structures/association lists; Python dict insertion-order
  semantics are preserved (overwrite keeps position, delete keeps the rest).
- ISO-8601 UTC timestamp strings become integer instants.  The repository only
  stores strings produced by `datetime.isoformat()` or by the YouTube API, so
  the `datetime.fromisoformat` calls in the embedded code always succeed and
  the dead `except`-on-parse branches are omitted.
- A `None`-able string field in a boolean position follows Python truthiness
  (absent and empty string are falsy).
- Network calls are passed in as functions; an exception a caller catches is
  modelled as an explicit error value.
-/

namespace LeoAutomation

/-- Truthiness of an optional string field of a JSON record, as Python
evaluates `record.get(field)` in a boolean position: absent (`None`) and the
empty string are falsy. -/
def truthy : Option String → Bool
  | none => false
  | some s => !s.isEmpty

/-- Snapshot of a video's state on the platform, as returned by
`YouTubeClient.get_video_status` and listed by `get_scheduled_videos`
(src/app/youtube/client.py). -/
structure RemoteVideoState where
  video_id : String
  privacy_status : String
  publish_at : Option Int
  title : String
  description : String
deriving Repr, DecidableEq

/-- Outcome of one `YouTubeClient.get_video_status(video_id)` call as observed
by its caller: the call may raise (network/auth failure), return `None`
(video unknown), or return a state. -/
inductive FetchResult where
  | error : FetchResult
  | notFound : FetchResult
  | found : RemoteVideoState → FetchResult
deriving Repr, DecidableEq

/-- A job record as stored in jobs.json, restricted to the fields the
reconciliation and sync code reads.  `publish_datetime` is the job's own
target publish instant; `description` is `metadata.description` (empty when
the metadata or the key is absent, matching lines 247-250 of videos.py). -/
structure Job where
  job_id : String
  user_id : String
  channel_id : Option String
  video_id : Option String
  video_title : String
  status : Option String
  publish_datetime : Option Int
  created_at : Int
  error_message : Option String
  description : String
deriving Repr, DecidableEq

/-- One entry of the reconciled scheduled view returned by
GET /api/videos/jobs: the job dict with its status possibly rewritten, plus
the keys the handler adds to it (`video_description`, `youtube_privacy`,
`youtube_publish_at`, `from_youtube`). -/
structure SyncedJob where
  job : Job
  video_description : String
  youtube_privacy : Option String
  youtube_publish_at : Option Int
  from_youtube : Bool
deriving Repr, DecidableEq

/-- Helper building a job-derived view entry. -/
def mkEntry (j : Job) (vdesc : String) (yp : Option String) (ypa : Option Int) :
    SyncedJob :=
  { job := j, video_description := vdesc, youtube_privacy := yp,
    youtube_publish_at := ypa, from_youtube := false }

/-- Per-job resolution step of `get_jobs` (src/app/api/videos.py lines
243-336): returns the `is_scheduled_and_not_public` flag and the (possibly
rewritten) job entry.  `fetch ch vid` is the outcome of
`YouTubeClient(user, ch).get_video_status(vid)`; the code catches any raise
from it and falls back to the job's own record (lines 313-325). -/
def syncOneJob (now : Int) (fetch : String → String → FetchResult)
    (job : Job) : Bool × SyncedJob :=
  if truthy job.video_id ∧ truthy job.channel_id then
    match fetch (job.channel_id.getD "") (job.video_id.getD "") with
    | FetchResult.found vs =>
      let vdesc := if job.description = "" ∧ vs.description ≠ "" then
                     vs.description
                   else job.description
      if vs.privacy_status = "public" then
        (false, mkEntry { job with status := some "published" } vdesc
          (some vs.privacy_status) vs.publish_at)
      else if vs.privacy_status = "private" ∨ vs.privacy_status = "unlisted" then
        match vs.publish_at with
        | some t =>
          if t ≤ now then
            (false, mkEntry { job with status := some "published" } vdesc
              (some vs.privacy_status) vs.publish_at)
          else
            (true, mkEntry { job with status := some "scheduled" } vdesc
              (some vs.privacy_status) vs.publish_at)
        | none =>
          match job.publish_datetime with
          | some pt =>
            if now < pt then
              (true, mkEntry { job with status := some "scheduled" } vdesc
                (some vs.privacy_status) vs.publish_at)
            else
              (false, mkEntry { job with status := some "uploaded" } vdesc
                (some vs.privacy_status) vs.publish_at)
          | none =>
            (false, mkEntry { job with status := some "uploaded" } vdesc
              (some vs.privacy_status) vs.publish_at)
      else
        (false, mkEntry { job with status := some "uploaded" } vdesc
          (some vs.privacy_status) vs.publish_at)
    | FetchResult.error =>
      match job.publish_datetime with
      | some pt =>
        if now < pt ∧ (job.status = some "scheduled" ∨ job.status = some "uploaded") then
          (true, mkEntry { job with status := some "scheduled" } job.description none none)
        else
          (false, mkEntry job job.description none none)
      | none => (false, mkEntry job job.description none none)
    | FetchResult.notFound => (false, mkEntry job job.description none none)
  else
    match job.publish_datetime with
    | some pt =>
      if now < pt ∧ (job.status = some "scheduled" ∨ job.status = some "uploaded"
          ∨ job.status = some "pending") then
        (true, mkEntry job job.description none none)
      else
        (false, mkEntry job job.description none none)
    | none => (false, mkEntry job job.description none none)

/-- Insert-or-overwrite into the video-id-keyed dict
`youtube_scheduled_videos` (Python dict semantics: overwriting keeps the key's
original position, a new key is appended). -/
def setKey (k : String) (v : RemoteVideoState) :
    List (String × RemoteVideoState) → List (String × RemoteVideoState)
  | [] => [(k, v)]
  | p :: rest => if p.1 = k then (k, v) :: rest else p :: setKey k v rest

/-- Python `del d[k]` on the video map (remaining insertion order kept). -/
def removeKey (k : String) (m : List (String × RemoteVideoState)) :
    List (String × RemoteVideoState) :=
  m.filter (fun p => p.1 != k)

/-- Merge one channel's `get_scheduled_videos` outcome into the map (lines
226-237 of videos.py): a raised call is logged and skipped (`none`), a
returned list is keyed by video id. -/
def addChannel (m : List (String × RemoteVideoState)) :
    Option (List RemoteVideoState) → List (String × RemoteVideoState)
  | none => m
  | some vids => vids.foldl (fun acc v => setKey v.video_id v acc) m

/-- Build `youtube_scheduled_videos` over all channels to check. -/
def buildRemoteMap (fetchScheduled : String → Option (List RemoteVideoState)) :
    List String → List (String × RemoteVideoState)
  | [] => []
  | ch :: rest =>
    buildRemoteMapAux fetchScheduled (addChannel [] (fetchScheduled ch)) rest
where
  /-- Remaining channels folded onto an accumulated map. -/
  buildRemoteMapAux (fetchScheduled : String → Option (List RemoteVideoState))
      (m : List (String × RemoteVideoState)) :
      List String → List (String × RemoteVideoState)
  | [] => m
  | ch :: rest => buildRemoteMapAux fetchScheduled (addChannel m (fetchScheduled ch)) rest

/-- Main loop of `get_jobs` (lines 243-343): resolve each job, collect the
included entries in discovery order, and for every included job whose video id
is a key of the remote map delete that key (lines 339-343). -/
def processJobs (now : Int) (fetch : String → String → FetchResult) :
    List Job → List (String × RemoteVideoState) →
    List SyncedJob × List (String × RemoteVideoState)
  | [], m => ([], m)
  | job :: rest, m =>
    let r := syncOneJob now fetch job
    if r.1 then
      let m' := match job.video_id with
        | some v => removeKey v m
        | none => m
      let rec' := processJobs now fetch rest m'
      (r.2 :: rec'.1, rec'.2)
    else processJobs now fetch rest m

/-- Step 3 of the view (lines 346-367): synthesize an entry for every remote
scheduled video left in the map whose publishAt is still in the future. -/
def remoteOnly (now : Int) (userId chDefault : String) :
    List (String × RemoteVideoState) → List SyncedJob
  | [] => []
  | (vid, vd) :: rest =>
    match vd.publish_at with
    | some t =>
      if now < t then
        { job := { job_id := "youtube_" ++ vid, user_id := userId,
                   channel_id := some chDefault, video_id := some vid,
                   video_title := vd.title, status := some "scheduled",
                   publish_datetime := some t, created_at := now,
                   error_message := none, description := "" },
          video_description := vd.description,
          youtube_privacy := some vd.privacy_status,
          youtube_publish_at := some t,
          from_youtube := true } :: remoteOnly now userId chDefault rest
      else remoteOnly now userId chDefault rest
    | none => remoteOnly now userId chDefault rest

/-- Comparison of the Python sort key `x.get('publish_datetime', '')` (line
375): a missing instant becomes the empty string, which is lexicographically
least among ISO-UTC timestamp strings, so `none` compares below every
instant. -/
def keyLE : Option Int → Option Int → Bool
  | none, _ => true
  | some _, none => false
  | some a, some b => decide (a ≤ b)

/-- Sort key of a view entry. -/
def entryKey (e : SyncedJob) : Option Int := e.job.publish_datetime

/-- Insert an entry into an already-sorted suffix, before the first entry of
greater-or-equal key; folded over the list this is exactly Python's stable
ascending `list.sort(key=...)`. -/
def insertEntry (x : SyncedJob) : List SyncedJob → List SyncedJob
  | [] => [x]
  | y :: ys => if keyLE (entryKey x) (entryKey y) then x :: y :: ys
               else y :: insertEntry x ys

/-- Python stable `list.sort(key=lambda x: x.get('publish_datetime', ''))`. -/
def sortJobs : List SyncedJob → List SyncedJob
  | [] => []
  | x :: xs => insertEntry x (sortJobs xs)

/-- jobs.json: the mapping from job id to job record, modelled as the ordered
key-value list of the JSON object. -/
structure Store where
  jobs : List (String × Job)
deriving Repr, DecidableEq

/-- Keys of the store, in object order. -/
def storeKeys (s : Store) : List String := s.jobs.map Prod.fst

/-- StorageManager.get_job. -/
def lookupJob (s : Store) (k : String) : Option Job :=
  (s.jobs.find? (fun p => p.1 == k)).map Prod.snd

/-- StorageManager.get_user_jobs: all records whose user_id matches, in object
order. -/
def get_user_jobs (s : Store) (u : String) : List Job :=
  (s.jobs.map Prod.snd).filter (fun j => j.user_id == u)

/-- Field rewrite StorageManager.update_job_status performs on the record:
status is written unconditionally; error_message and video_id only when the
argument is truthy (neither None nor empty). -/
def applyUpdate (j : Job) (st : String) (em vid : Option String) : Job :=
  { j with status := some st,
           error_message := if truthy em then em else j.error_message,
           video_id := if truthy vid then vid else j.video_id }

/-- Pointwise rewrite of the store's entry list at a key. -/
def updateEntries (jobId st : String) (em vid : Option String) :
    List (String × Job) → List (String × Job)
  | [] => []
  | p :: rest =>
    if p.1 = jobId then (p.1, applyUpdate p.2 st em vid) :: updateEntries jobId st em vid rest
    else p :: updateEntries jobId st em vid rest

/-- StorageManager.update_job_status (storage_manager.py lines 112-121):
rewrites the record at `jobId` when that key is present; when absent nothing
is written. -/
def update_job_status (s : Store) (jobId st : String) (em vid : Option String) :
    Store :=
  { jobs := updateEntries jobId st em vid s.jobs }

/-- GET /api/videos/jobs (videos.py `get_jobs`): the reconciled scheduled
view.  `channelsResult` is the outcome of the `get_channels` call used when no
channel is requested (`none` = it raised, leaving no channels to check).  The
handler performs no storage write — it never calls save_job or
update_job_status — so the store is returned unchanged alongside the view. -/
def get_jobs (now : Int)
    (fetchScheduled : String → Option (List RemoteVideoState))
    (fetchStatus : String → String → FetchResult)
    (channelsResult : Option (List String))
    (s : Store) (u : String) (reqChannel : Option String) :
    List SyncedJob × Store :=
  let jobs := get_user_jobs s u
  let channelsToCheck :=
    if truthy reqChannel then [reqChannel.getD ""] else channelsResult.getD []
  let m0 := buildRemoteMap fetchScheduled channelsToCheck
  let r := processJobs now fetchStatus jobs m0
  let chDefault :=
    if truthy reqChannel then reqChannel.getD ""
    else match channelsToCheck with
         | [] => ""
         | c :: _ => c
  (sortJobs (r.1 ++ remoteOnly now u chDefault r.2), s)

/-- Status resolution of POST /api/videos/jobs/sync (videos.py lines
471-484): note the privacy test is equality with "private" and a record with
no publishAt resolves to "uploaded". -/
def computeSyncStatus (now : Int) (vs : RemoteVideoState) : String :=
  if vs.privacy_status = "public" then "published"
  else if vs.privacy_status = "private" then
    match vs.publish_at with
    | some t => if t ≤ now then "published" else "scheduled"
    | none => "uploaded"
  else "uploaded"

/-- Status resolution of GET /api/videos/jobs/{job_id} (videos.py lines
429-442), of the same shape as the sync endpoint's. -/
def resolveViewStatus (now : Int) (vs : RemoteVideoState) : String :=
  if vs.privacy_status = "public" then "published"
  else if vs.privacy_status = "private" then
    match vs.publish_at with
    | some t => if t ≤ now then "published" else "scheduled"
    | none => "uploaded"
  else "uploaded"

/-- Main loop of POST /api/videos/jobs/sync (videos.py lines 458-491):
iterate the snapshot of the user's jobs, write back each remote-derived status
that differs from the snapshot's, and count the writes.  A raise from the
per-job fetch is caught, logged and skipped. -/
def syncLoop (now : Int) (fetch : String → String → FetchResult) :
    List Job → Store → Nat × Store
  | [], s => (0, s)
  | job :: rest, s =>
    if truthy job.video_id ∧ truthy job.channel_id then
      match fetch (job.channel_id.getD "") (job.video_id.getD "") with
      | FetchResult.found vs =>
        let ns := computeSyncStatus now vs
        if job.status ≠ some ns then
          let r := syncLoop now fetch rest
            (update_job_status s job.job_id ns none job.video_id)
          (r.1 + 1, r.2)
        else syncLoop now fetch rest s
      | _ => syncLoop now fetch rest s
    else syncLoop now fetch rest s

/-- POST /api/videos/jobs/sync: returns the changed-job count and the final
store. -/
def sync_jobs_with_youtube (now : Int) (fetch : String → String → FetchResult)
    (s : Store) (u : String) : Nat × Store :=
  syncLoop now fetch (get_user_jobs s u) s

/-- The closure `publish_video` armed by JobManager.schedule_publish
(src/app/scheduler/job_manager.py lines 27-40) and fired once at the target
instant.  `privacyResult` is the outcome of the
`update_video_privacy(video_id, "public")` call, an error carrying the raised
exception's message string.  The closure schedules no retry in either case. -/
def publish_video (privacyResult : Except String Unit) (s : Store)
    (jobId vid : String) : Store :=
  match privacyResult with
  | Except.ok _ => update_job_status s jobId "published" none (some vid)
  | Except.error e => update_job_status s jobId "failed" (some e) (some vid)

/-- Store well-formedness maintained by the application: the JSON object's
keys are unique (it is a dict) and every record's job_id field equals its key
(save_job is always called with job_data containing its own id). -/
def wfStore (s : Store) : Prop :=
  (storeKeys s).Nodup ∧ ∀ p ∈ s.jobs, p.2.job_id = p.1

/-- A job record already carries the status the sync endpoint would derive for
it under a fixed remote state and time. -/
def syncedJob (now : Int) (fetch : String → String → FetchResult) (j : Job) :
    Prop :=
  ∀ vs, truthy j.video_id = true → truthy j.channel_id = true →
    fetch (j.channel_id.getD "") (j.video_id.getD "") = FetchResult.found vs →
    j.status = some (computeSyncStatus now vs)

/-! Lemmas about the sort: the key order is total, transitive and reflexive,
insertion keeps sortedness, membership, counts and key-equal subsequences. -/

theorem keyLE_refl (a : Option Int) : keyLE a a = true := by
  cases a <;> simp [keyLE]

theorem keyLE_total (a b : Option Int) : keyLE a b = true ∨ keyLE b a = true := by
  cases a <;> cases b <;> simp [keyLE] <;> omega

theorem keyLE_trans {a b c : Option Int} (h1 : keyLE a b = true)
    (h2 : keyLE b c = true) : keyLE a c = true := by
  cases a <;> cases b <;> cases c <;> simp_all [keyLE] <;> omega

theorem mem_insertEntry {x a : SyncedJob} {l : List SyncedJob} :
    a ∈ insertEntry x l ↔ a = x ∨ a ∈ l := by
  induction l with
  | nil => simp [insertEntry]
  | cons y ys ih =>
    rw [insertEntry]
    by_cases hc : keyLE (entryKey x) (entryKey y) = true
    · simp [hc]
    · simp [hc, ih]
      tauto

theorem pairwise_insertEntry {x : SyncedJob} {l : List SyncedJob}
    (h : l.Pairwise (fun a b => keyLE (entryKey a) (entryKey b) = true)) :
    (insertEntry x l).Pairwise
      (fun a b => keyLE (entryKey a) (entryKey b) = true) := by
  induction l with
  | nil => simp [insertEntry]
  | cons y ys ih =>
    rw [insertEntry]
    rcases List.pairwise_cons.mp h with ⟨hy, hys⟩
    by_cases hc : keyLE (entryKey x) (entryKey y) = true
    · rw [if_pos hc]
      refine List.pairwise_cons.mpr ⟨?_, h⟩
      intro z hz
      rcases List.mem_cons.mp hz with rfl | hz'
      · exact hc
      · exact keyLE_trans hc (hy z hz')
    · rw [if_neg hc]
      refine List.pairwise_cons.mpr ⟨?_, ih hys⟩
      intro z hz
      rcases mem_insertEntry.mp hz with rfl | hz'
      · rcases keyLE_total (entryKey z) (entryKey y) with h' | h'
        · exact (hc h').elim
        · exact h'
      · exact hy z hz'

theorem sortJobs_pairwise (l : List SyncedJob) :
    (sortJobs l).Pairwise (fun a b => keyLE (entryKey a) (entryKey b) = true) := by
  induction l with
  | nil => simp [sortJobs]
  | cons x xs ih => exact pairwise_insertEntry ih

theorem mem_sortJobs {a : SyncedJob} {l : List SyncedJob} :
    a ∈ sortJobs l ↔ a ∈ l := by
  induction l with
  | nil => simp [sortJobs]
  | cons x xs ih =>
    rw [sortJobs, mem_insertEntry, ih]
    simp

theorem countP_insertEntry (p : SyncedJob → Bool) (x : SyncedJob)
    (l : List SyncedJob) :
    (insertEntry x l).countP p = l.countP p + (if p x then 1 else 0) := by
  induction l with
  | nil => simp [insertEntry, List.countP_cons]
  | cons y ys ih =>
    rw [insertEntry]
    by_cases hc : keyLE (entryKey x) (entryKey y) = true
    · rw [if_pos hc]
      simp [List.countP_cons]
    · rw [if_neg hc]
      simp [List.countP_cons, ih]
      omega

theorem countP_sortJobs (p : SyncedJob → Bool) (l : List SyncedJob) :
    (sortJobs l).countP p = l.countP p := by
  induction l with
  | nil => rfl
  | cons x xs ih =>
    rw [sortJobs, countP_insertEntry, ih, List.countP_cons]

theorem filter_insertEntry_of_ne {x : SyncedJob} {k : Option Int}
    (hx : entryKey x ≠ k) (l : List SyncedJob) :
    (insertEntry x l).filter (fun e => decide (entryKey e = k))
      = l.filter (fun e => decide (entryKey e = k)) := by
  induction l with
  | nil => simp [insertEntry, hx]
  | cons y ys ih =>
    rw [insertEntry]
    by_cases hc : keyLE (entryKey x) (entryKey y) = true
    · rw [if_pos hc]
      simp [List.filter_cons, hx]
    · rw [if_neg hc]
      simp only [List.filter_cons, ih]

theorem filter_insertEntry_of_eq {x : SyncedJob} {k : Option Int}
    (hx : entryKey x = k) (l : List SyncedJob) :
    (insertEntry x l).filter (fun e => decide (entryKey e = k))
      = x :: l.filter (fun e => decide (entryKey e = k)) := by
  induction l with
  | nil => simp [insertEntry, hx]
  | cons y ys ih =>
    rw [insertEntry]
    by_cases hc : keyLE (entryKey x) (entryKey y) = true
    · rw [if_pos hc]
      simp [List.filter_cons, hx]
    · rw [if_neg hc]
      have hy : entryKey y ≠ k := by
        intro hyk
        exact hc (by rw [hx, hyk]; exact keyLE_refl k)
      simp [List.filter_cons, hy, ih]

theorem sortJobs_stable (l : List SyncedJob) (k : Option Int) :
    (sortJobs l).filter (fun e => decide (entryKey e = k))
      = l.filter (fun e => decide (entryKey e = k)) := by
  induction l with
  | nil => rfl
  | cons x xs ih =>
    rw [sortJobs]
    by_cases hx : entryKey x = k
    · rw [filter_insertEntry_of_eq hx, ih]
      simp [List.filter_cons, hx]
    · rw [filter_insertEntry_of_ne hx, ih]
      simp [List.filter_cons, hx]

/-! Lemmas about the job store and update_job_status. -/

theorem updateEntries_keys (jobId st : String) (em vid : Option String) :
    ∀ jobs : List (String × Job),
      (updateEntries jobId st em vid jobs).map Prod.fst = jobs.map Prod.fst
  | [] => rfl
  | p :: rest => by
    rw [updateEntries]
    by_cases h : p.1 = jobId
    · rw [if_pos h, List.map_cons, List.map_cons,
        updateEntries_keys jobId st em vid rest]
    · rw [if_neg h, List.map_cons, List.map_cons,
        updateEntries_keys jobId st em vid rest]

theorem storeKeys_update (s : Store) (jobId st : String) (em vid : Option String) :
    storeKeys (update_job_status s jobId st em vid) = storeKeys s :=
  updateEntries_keys jobId st em vid s.jobs

theorem updateEntries_absent (jobId st : String) (em vid : Option String) :
    ∀ jobs : List (String × Job), jobId ∉ jobs.map Prod.fst →
      updateEntries jobId st em vid jobs = jobs
  | [], _ => rfl
  | p :: rest, h => by
    have hne : p.1 ≠ jobId := by
      intro e
      exact h (by rw [List.map_cons, ← e]; exact List.mem_cons_self _ _)
    have hrest : jobId ∉ rest.map Prod.fst := by
      intro hm
      exact h (by rw [List.map_cons]; exact List.mem_cons_of_mem _ hm)
    rw [updateEntries, if_neg hne, updateEntries_absent jobId st em vid rest hrest]

theorem update_job_status_absent (s : Store) (jobId st : String)
    (em vid : Option String) (h : jobId ∉ storeKeys s) :
    update_job_status s jobId st em vid = s := by
  cases s with
  | mk jobs =>
    simp only [update_job_status, Store.mk.injEq]
    exact updateEntries_absent jobId st em vid jobs h

theorem find?_updateEntries (jobId st : String) (em vid : Option String)
    (k : String) :
    ∀ jobs : List (String × Job),
      (updateEntries jobId st em vid jobs).find? (fun p => p.1 == k) =
        if k = jobId
        then (jobs.find? (fun p => p.1 == jobId)).map
               (fun p => (p.1, applyUpdate p.2 st em vid))
        else jobs.find? (fun p => p.1 == k)
  | [] => by
    rw [updateEntries]
    split <;> rfl
  | q :: rest => by
    have ih := find?_updateEntries jobId st em vid k rest
    rw [updateEntries]
    by_cases hqj : q.1 = jobId
    · by_cases hk : k = jobId
      · have e1 : List.find? (fun r => r.1 == k)
            ((q.1, applyUpdate q.2 st em vid) :: updateEntries jobId st em vid rest)
            = some (q.1, applyUpdate q.2 st em vid) :=
          List.find?_cons_of_pos _ (by simp [hqj, hk])
        have e2 : List.find? (fun r => r.1 == jobId) (q :: rest) = some q :=
          List.find?_cons_of_pos _ (by simp [hqj])
        rw [if_pos hqj, if_pos hk, e1, e2, Option.map_some']
      · have hqk : ¬ ((q.1 == k) = true) := by
          simp only [beq_iff_eq, hqj]
          exact fun e => hk e.symm
        have e1 : List.find? (fun r => r.1 == k)
            ((q.1, applyUpdate q.2 st em vid) :: updateEntries jobId st em vid rest)
            = List.find? (fun r => r.1 == k) (updateEntries jobId st em vid rest) :=
          List.find?_cons_of_neg _ (by simpa using hqk)
        have e2 : List.find? (fun r => r.1 == k) (q :: rest)
            = List.find? (fun r => r.1 == k) rest :=
          List.find?_cons_of_neg _ hqk
        rw [if_pos hqj, if_neg hk, e1, e2, ih, if_neg hk]
    · by_cases hqk : (q.1 == k) = true
      · have hk : ¬ (k = jobId) := by
          rw [beq_iff_eq] at hqk
          intro e
          exact hqj (by rw [hqk, e])
        have e1 : List.find? (fun r => r.1 == k)
            (q :: updateEntries jobId st em vid rest) = some q :=
          List.find?_cons_of_pos _ hqk
        have e2 : List.find? (fun r => r.1 == k) (q :: rest) = some q :=
          List.find?_cons_of_pos _ hqk
        rw [if_neg hqj, if_neg hk, e1, e2]
      · have e1 : List.find? (fun r => r.1 == k)
            (q :: updateEntries jobId st em vid rest)
            = List.find? (fun r => r.1 == k) (updateEntries jobId st em vid rest) :=
          List.find?_cons_of_neg _ hqk
        by_cases hk : k = jobId
        · have hqj' : ¬ ((q.1 == jobId) = true) := by
            simpa [beq_iff_eq] using hqj
          have e2 : List.find? (fun r => r.1 == jobId) (q :: rest)
              = List.find? (fun r => r.1 == jobId) rest :=
            List.find?_cons_of_neg _ hqj'
          rw [if_neg hqj, if_pos hk, e1, e2, ih, if_pos hk]
        · have e2 : List.find? (fun r => r.1 == k) (q :: rest)
              = List.find? (fun r => r.1 == k) rest :=
            List.find?_cons_of_neg _ hqk
          rw [if_neg hqj, if_neg hk, e1, e2, ih, if_neg hk]

theorem lookupJob_update (s : Store) (jobId st : String) (em vid : Option String)
    (k : String) :
    lookupJob (update_job_status s jobId st em vid) k =
      if k = jobId
      then (lookupJob s jobId).map (fun j => applyUpdate j st em vid)
      else lookupJob s k := by
  simp only [lookupJob, update_job_status, find?_updateEntries]
  by_cases hk : k = jobId
  · rw [if_pos hk, if_pos hk]
    cases s.jobs.find? (fun p => p.1 == jobId) <;> rfl
  · rw [if_neg hk, if_neg hk]

/-- C10: update_job_status is a frame-preserving partial update: it touches
only the addressed record and only its status, error_message and video_id
fields; a falsy (None/empty) error_message or video_id argument leaves the
stored value intact; an absent job id leaves the whole store unchanged. -/
theorem C10_update_frame (s : Store) (jobId st : String) (em vid : Option String) :
    (jobId ∉ storeKeys s → update_job_status s jobId st em vid = s)
    ∧ (∀ k, k ≠ jobId →
        lookupJob (update_job_status s jobId st em vid) k = lookupJob s k)
    ∧ (∀ j, lookupJob s jobId = some j →
        lookupJob (update_job_status s jobId st em vid) jobId
          = some (applyUpdate j st em vid))
    ∧ ∀ j : Job,
        (applyUpdate j st em vid).job_id = j.job_id
        ∧ (applyUpdate j st em vid).user_id = j.user_id
        ∧ (applyUpdate j st em vid).channel_id = j.channel_id
        ∧ (applyUpdate j st em vid).video_title = j.video_title
        ∧ (applyUpdate j st em vid).publish_datetime = j.publish_datetime
        ∧ (applyUpdate j st em vid).created_at = j.created_at
        ∧ (applyUpdate j st em vid).description = j.description
        ∧ (applyUpdate j st em vid).status = some st
        ∧ (truthy em = false →
            (applyUpdate j st em vid).error_message = j.error_message)
        ∧ (truthy vid = false →
            (applyUpdate j st em vid).video_id = j.video_id) := by
  refine ⟨update_job_status_absent s jobId st em vid, ?_, ?_, ?_⟩
  · intro k hk
    rw [lookupJob_update, if_neg hk]
  · intro j hj
    rw [lookupJob_update, if_pos rfl, hj, Option.map_some']
  · intro j
    refine ⟨rfl, rfl, rfl, rfl, rfl, rfl, rfl, rfl, ?_, ?_⟩
    · intro hem
      simp [applyUpdate, hem]
    · intro hvid
      simp [applyUpdate, hvid]

/-- Closed instance of C10_update_frame: a store with one job, updated under a
missing id, under its own id with falsy optional arguments, and looked up at a
different key. -/
theorem C10_update_frame_witness :
    update_job_status
        (Store.mk [("j1", ⟨"j1", "u", some "c", some "v1", "T",
          some "scheduled", some 200, 0, some "old", ""⟩)])
        "j2" "failed" (some "") none
      = Store.mk [("j1", ⟨"j1", "u", some "c", some "v1", "T",
          some "scheduled", some 200, 0, some "old", ""⟩)]
    ∧ lookupJob
        (update_job_status
          (Store.mk [("j1", ⟨"j1", "u", some "c", some "v1", "T",
            some "scheduled", some 200, 0, some "old", ""⟩)])
          "j1" "failed" (some "") none)
        "j1"
      = some (applyUpdate
          ⟨"j1", "u", some "c", some "v1", "T", some "scheduled", some 200, 0,
            some "old", ""⟩ "failed" (some "") none)
    ∧ (applyUpdate
        ⟨"j1", "u", some "c", some "v1", "T", some "scheduled", some 200, 0,
          some "old", ""⟩ "failed" (some "") none).error_message = some "old" := by
  refine ⟨(C10_update_frame _ "j2" "failed" (some "") none).1 (by decide),
    (C10_update_frame _ "j1" "failed" (some "") none).2.2.1 _ (by decide), ?_⟩
  exact ((C10_update_frame
    (Store.mk [("j1", ⟨"j1", "u", some "c", some "v1", "T", some "scheduled",
      some 200, 0, some "old", ""⟩)]) "j1" "failed" (some "") none).2.2.2
    ⟨"j1", "u", some "c", some "v1", "T", some "scheduled", some 200, 0,
      some "old", ""⟩).2.2.2.2.2.2.2.2.1 (by decide)

theorem truthy_some_iff (v : String) : truthy (some v) = true ↔ v ≠ "" := by
  simp only [truthy, Bool.not_eq_true', Bool.eq_false_iff, Ne]
  exact not_congr (String.isEmpty_iff v)

/-- C9 counterexample: the backstop fires and the privacy update fails with an
exception whose message is the empty string.  The job is marked failed, but
the error message is not captured: the previously stored message "old" is
still there (update_job_status only writes a truthy error_message). -/
theorem C9_backstop_counterexample :
    (lookupJob
        (publish_video (Except.error "")
          (Store.mk [("j1", ⟨"j1", "u", some "c", some "v1", "T",
            some "scheduled", some 200, 0, some "old", ""⟩)])
          "j1" "v1")
        "j1").map (fun j => (j.status, j.error_message))
      = some (some "failed", some "old")
    ∧ (some "old" : Option String) ≠ some "" := by
  constructor
  · rfl
  · decide

/-- C9 (amended): when the armed backstop fires, the privacy-update outcome
determines the persisted record unconditionally and exactly once: on success
the status becomes published; on failure the status becomes failed and the
exception message is captured when it is nonempty (an empty message leaves the
previously stored error_message in place).  No retry is performed — the fired
closure makes this single store transition. -/
theorem C9_backstop_fire (s : Store) (jobId vid msg : String) (j : Job)
    (hj : lookupJob s jobId = some j) :
    lookupJob (publish_video (Except.ok ()) s jobId vid) jobId
      = some { j with status := some "published",
                      video_id := if vid = "" then j.video_id else some vid }
    ∧ lookupJob (publish_video (Except.error msg) s jobId vid) jobId
      = some { j with status := some "failed",
                      error_message := if msg = "" then j.error_message else some msg,
                      video_id := if vid = "" then j.video_id else some vid } := by
  constructor
  · rw [publish_video, lookupJob_update, if_pos rfl, hj, Option.map_some']
    congr 1
    by_cases h : vid = "" <;>
      simp [applyUpdate, truthy, String.isEmpty_iff, h]
  · rw [publish_video, lookupJob_update, if_pos rfl, hj, Option.map_some']
    congr 1
    by_cases h : vid = "" <;> by_cases hm : msg = "" <;>
      simp [applyUpdate, truthy, String.isEmpty_iff, h, hm]

/-- Closed instance of C9_backstop_fire on a one-job store, exercising both the
success and the failure outcome. -/
theorem C9_backstop_fire_witness :
    lookupJob
        (publish_video (Except.ok ())
          (Store.mk [("j1", ⟨"j1", "u", some "c", some "v1", "T",
            some "scheduled", some 200, 0, none, ""⟩)])
          "j1" "v1")
        "j1"
      = some { job_id := "j1", user_id := "u", channel_id := some "c",
               video_id := some "v1", video_title := "T",
               status := some "published", publish_datetime := some 200,
               created_at := 0, error_message := none, description := "" }
    ∧ lookupJob
        (publish_video (Except.error "boom")
          (Store.mk [("j1", ⟨"j1", "u", some "c", some "v1", "T",
            some "scheduled", some 200, 0, none, ""⟩)])
          "j1" "v1")
        "j1"
      = some { job_id := "j1", user_id := "u", channel_id := some "c",
               video_id := some "v1", video_title := "T",
               status := some "failed", publish_datetime := some 200,
               created_at := 0, error_message := some "boom",
               description := "" } := by
  have h := C9_backstop_fire
    (Store.mk [("j1", ⟨"j1", "u", some "c", some "v1", "T",
      some "scheduled", some 200, 0, none, ""⟩)])
    "j1" "v1" "boom"
    ⟨"j1", "u", some "c", some "v1", "T", some "scheduled", some 200, 0, none, ""⟩
    (by decide)
  exact ⟨h.1, h.2⟩

/-- C1 counterexample: for remote privacy "unlisted" with a future publishAt
(now = 50, publishAt = 100), the sync endpoint and the single-job view both
resolve "uploaded", while the reconciled list view resolves "scheduled" — the
three operations do not share the claimed precedence. -/
theorem C1_resolution_counterexample :
    computeSyncStatus 50 ⟨"v1", "unlisted", some 100, "T", ""⟩ = "uploaded"
    ∧ resolveViewStatus 50 ⟨"v1", "unlisted", some 100, "T", ""⟩ = "uploaded"
    ∧ (syncOneJob 50
        (fun _ _ => FetchResult.found ⟨"v1", "unlisted", some 100, "T", ""⟩)
        ⟨"j1", "u", some "c", some "v1", "T", some "scheduled", some 200, 0,
          none, ""⟩).2.job.status = some "scheduled"
    ∧ ("uploaded" : String) ≠ "scheduled" := by
  exact ⟨rfl, rfl, rfl, by decide⟩

/-- C1 (amended): only the reconciled list view resolves by the claimed
precedence (privacy in {private, unlisted}, future publishAt → scheduled; no
publishAt → fall back to the job's own target instant).  The single-job view
and the sync endpoint use a different rule: only privacy exactly "private"
with a publishAt present can yield scheduled/published; privacy "unlisted",
or "private" with no publishAt, resolves to "uploaded" without consulting the
job's own target instant. -/
theorem C1_resolution_rules (now : Int) (fetch : String → String → FetchResult)
    (job : Job) (vs : RemoteVideoState)
    (htv : truthy job.video_id = true) (htc : truthy job.channel_id = true)
    (hf : fetch (job.channel_id.getD "") (job.video_id.getD "")
      = FetchResult.found vs)
    (hp : vs.privacy_status = "private" ∨ vs.privacy_status = "unlisted") :
    (∀ t, vs.publish_at = some t → now < t →
      (syncOneJob now fetch job).1 = true
      ∧ (syncOneJob now fetch job).2.job.status = some "scheduled")
    ∧ (vs.publish_at = none → ∀ pt, job.publish_datetime = some pt → now < pt →
        (syncOneJob now fetch job).1 = true
        ∧ (syncOneJob now fetch job).2.job.status = some "scheduled")
    ∧ (vs.publish_at = none → ∀ pt, job.publish_datetime = some pt → pt ≤ now →
        (syncOneJob now fetch job).1 = false
        ∧ (syncOneJob now fetch job).2.job.status = some "uploaded")
    ∧ (vs.publish_at = none → job.publish_datetime = none →
        (syncOneJob now fetch job).1 = false
        ∧ (syncOneJob now fetch job).2.job.status = some "uploaded")
    ∧ (vs.privacy_status = "unlisted" →
        computeSyncStatus now vs = "uploaded"
        ∧ resolveViewStatus now vs = "uploaded")
    ∧ (vs.privacy_status = "private" → vs.publish_at = none →
        computeSyncStatus now vs = "uploaded"
        ∧ resolveViewStatus now vs = "uploaded")
    ∧ (∀ t, vs.privacy_status = "private" → vs.publish_at = some t →
        computeSyncStatus now vs = (if t ≤ now then "published" else "scheduled")
        ∧ resolveViewStatus now vs
            = (if t ≤ now then "published" else "scheduled")) := by
  have hpub : ¬ vs.privacy_status = "public" := by
    rcases hp with h | h <;> rw [h] <;> decide
  refine ⟨?_, ?_, ?_, ?_, ?_, ?_, ?_⟩
  · intro t ht hfut
    have hnle : ¬ t ≤ now := by omega
    rw [syncOneJob] at *
    simp [htv, htc, hf, hpub, hp, ht, hnle, mkEntry]
  · intro hnone pt hpt hfut
    rw [syncOneJob] at *
    simp [htv, htc, hf, hpub, hp, hnone, hpt, hfut, mkEntry]
  · intro hnone pt hpt hpast
    have hnlt : ¬ now < pt := by omega
    rw [syncOneJob] at *
    simp [htv, htc, hf, hpub, hp, hnone, hpt, hnlt, mkEntry]
  · intro hnone hjnone
    rw [syncOneJob] at *
    simp [htv, htc, hf, hpub, hp, hnone, hjnone, mkEntry]
  · intro hu
    constructor <;>
      simp [computeSyncStatus, resolveViewStatus, hu]
  · intro hpriv hnone
    constructor <;>
      simp [computeSyncStatus, resolveViewStatus, hpriv, hnone]
  · intro t hpriv ht
    constructor <;>
      simp [computeSyncStatus, resolveViewStatus, hpriv, ht]

/-- Closed instance of C1_resolution_rules: private remote state with a future
publishAt, so the list view includes the job as scheduled while the sync
endpoint would also say scheduled here; and the same with no publishAt where
the sync endpoint says uploaded. -/
theorem C1_resolution_rules_witness :
    ((syncOneJob 50
        (fun _ _ => FetchResult.found ⟨"v1", "private", some 100, "T", ""⟩)
        ⟨"j1", "u", some "c", some "v1", "T", some "scheduled", some 200, 0,
          none, ""⟩).1 = true
      ∧ (syncOneJob 50
          (fun _ _ => FetchResult.found ⟨"v1", "private", some 100, "T", ""⟩)
          ⟨"j1", "u", some "c", some "v1", "T", some "scheduled", some 200, 0,
            none, ""⟩).2.job.status = some "scheduled")
    ∧ computeSyncStatus 50 ⟨"v1", "private", none, "T", ""⟩ = "uploaded"
      ∧ resolveViewStatus 50 ⟨"v1", "private", none, "T", ""⟩ = "uploaded" := by
  constructor
  · exact (C1_resolution_rules 50
      (fun _ _ => FetchResult.found ⟨"v1", "private", some 100, "T", ""⟩)
      ⟨"j1", "u", some "c", some "v1", "T", some "scheduled", some 200, 0,
        none, ""⟩
      ⟨"v1", "private", some 100, "T", ""⟩
      (by decide) (by decide) rfl (Or.inl rfl)).1 100 rfl (by decide)
  · exact (C1_resolution_rules 50
      (fun _ _ => FetchResult.found ⟨"v1", "private", none, "T", ""⟩)
      ⟨"j1", "u", some "c", some "v1", "T", some "scheduled", some 200, 0,
        none, ""⟩
      ⟨"v1", "private", none, "T", ""⟩
      (by decide) (by decide) rfl (Or.inl rfl)).2.2.2.2.2.1 rfl rfl

/-- C5 counterexample: a job persisted as "uploaded" whose remote state is
private with a future publishAt.  The reconciled view shows it as "scheduled",
but the store is returned unchanged — get_jobs performs no write, so the
persisted status still reads "uploaded". -/
theorem C5_no_writeback_counterexample :
    (get_jobs 50 (fun _ => some [])
        (fun _ _ => FetchResult.found ⟨"v1", "private", some 100, "T", ""⟩)
        none
        (Store.mk [("j1", ⟨"j1", "u", some "c", some "v1", "T",
          some "uploaded", some 200, 0, none, ""⟩)])
        "u" (some "c")).1.map (fun e => e.job.status) = [some "scheduled"]
    ∧ (get_jobs 50 (fun _ => some [])
        (fun _ _ => FetchResult.found ⟨"v1", "private", some 100, "T", ""⟩)
        none
        (Store.mk [("j1", ⟨"j1", "u", some "c", some "v1", "T",
          some "uploaded", some 200, 0, none, ""⟩)])
        "u" (some "c")).2
      = Store.mk [("j1", ⟨"j1", "u", some "c", some "v1", "T",
          some "uploaded", some 200, 0, none, ""⟩)]
    ∧ (lookupJob (Store.mk [("j1", ⟨"j1", "u", some "c", some "v1", "T",
          some "uploaded", some 200, 0, none, ""⟩)]) "j1").map Job.status
      = some (some "uploaded")
    ∧ (some "uploaded" : Option String) ≠ some "scheduled" := by
  exact ⟨rfl, rfl, rfl, by decide⟩

/-- C5 (amended): the reconciled list view never persists the statuses it
resolves — the store passes through get_jobs unchanged; a resolved status is
persisted only by the sync endpoint, which writes back exactly the jobs whose
snapshot status differs from the remote-derived one. -/
theorem C5_view_pure_sync_writes :
    (∀ now fetchScheduled fetchStatus channelsResult s u reqChannel,
      (get_jobs now fetchScheduled fetchStatus channelsResult s u
        reqChannel).2 = s)
    ∧ (∀ (now : Int) (fetch : String → String → FetchResult) (s : Store)
        (job : Job) (vs : RemoteVideoState),
        truthy job.video_id = true → truthy job.channel_id = true →
        fetch (job.channel_id.getD "") (job.video_id.getD "")
          = FetchResult.found vs →
        job.status ≠ some (computeSyncStatus now vs) →
        syncLoop now fetch [job] s
          = (1, update_job_status s job.job_id (computeSyncStatus now vs)
              none job.video_id)) := by
  constructor
  · intro now fetchScheduled fetchStatus channelsResult s u reqChannel
    rfl
  · intro now fetch s job vs htv htc hf hne
    rw [syncLoop]
    simp [htv, htc, hf, hne, syncLoop]

/-- Closed instance of C5_view_pure_sync_writes. -/
theorem C5_view_pure_sync_writes_witness :
    (get_jobs 50 (fun _ => some [])
        (fun _ _ => FetchResult.found ⟨"v1", "private", some 100, "T", ""⟩)
        none
        (Store.mk [("j1", ⟨"j1", "u", some "c", some "v1", "T",
          some "uploaded", some 200, 0, none, ""⟩)])
        "u" (some "c")).2
      = Store.mk [("j1", ⟨"j1", "u", some "c", some "v1", "T",
          some "uploaded", some 200, 0, none, ""⟩)]
    ∧ syncLoop 50
        (fun _ _ => FetchResult.found ⟨"v1", "private", some 100, "T", ""⟩)
        [⟨"j1", "u", some "c", some "v1", "T", some "uploaded", some 200, 0,
          none, ""⟩]
        (Store.mk [("j1", ⟨"j1", "u", some "c", some "v1", "T",
          some "uploaded", some 200, 0, none, ""⟩)])
      = (1, update_job_status
          (Store.mk [("j1", ⟨"j1", "u", some "c", some "v1", "T",
            some "uploaded", some 200, 0, none, ""⟩)])
          "j1" "scheduled" none (some "v1")) := by
  constructor
  · exact C5_view_pure_sync_writes.1 50 (fun _ => some [])
      (fun _ _ => FetchResult.found ⟨"v1", "private", some 100, "T", ""⟩)
      none
      (Store.mk [("j1", ⟨"j1", "u", some "c", some "v1", "T",
        some "uploaded", some 200, 0, none, ""⟩)])
      "u" (some "c")
  · exact C5_view_pure_sync_writes.2 50
      (fun _ _ => FetchResult.found ⟨"v1", "private", some 100, "T", ""⟩)
      (Store.mk [("j1", ⟨"j1", "u", some "c", some "v1", "T",
        some "uploaded", some 200, 0, none, ""⟩)])
      ⟨"j1", "u", some "c", some "v1", "T", some "uploaded", some 200, 0,
        none, ""⟩
      ⟨"v1", "private", some 100, "T", ""⟩
      (by decide) (by decide) rfl (by decide)

/-- C8 counterexample: a job persisted as "published" whose remote state is
private with a future publishAt.  One sync call moves it back to "scheduled"
and counts it as changed — "published" is not terminal and the transition is
not monotone. -/
theorem C8_not_monotone_counterexample :
    (sync_jobs_with_youtube 50
        (fun _ _ => FetchResult.found ⟨"v1", "private", some 100, "T", ""⟩)
        (Store.mk [("j1", ⟨"j1", "u", some "c", some "v1", "T",
          some "published", some 200, 0, none, ""⟩)])
        "u").1 = 1
    ∧ ((sync_jobs_with_youtube 50
        (fun _ _ => FetchResult.found ⟨"v1", "private", some 100, "T", ""⟩)
        (Store.mk [("j1", ⟨"j1", "u", some "c", some "v1", "T",
          some "published", some 200, 0, none, ""⟩)])
        "u").2.jobs.map (fun p => p.2.status)) = [some "scheduled"] := by
  exact ⟨rfl, rfl⟩

theorem buildRemoteMapAux_congr (f g : String → Option (List RemoteVideoState))
    (h : ∀ c, f c = g c ∨ (f c = none ∧ g c = some [])) :
    ∀ (channels : List String) (m : List (String × RemoteVideoState)),
      buildRemoteMap.buildRemoteMapAux f m channels
        = buildRemoteMap.buildRemoteMapAux g m channels
  | [], m => rfl
  | ch :: rest, m => by
    rw [buildRemoteMap.buildRemoteMapAux, buildRemoteMap.buildRemoteMapAux]
    rcases h ch with he | ⟨hf, hg⟩
    · rw [he]
      exact buildRemoteMapAux_congr f g h rest _
    · rw [hf, hg]
      exact buildRemoteMapAux_congr f g h rest _

theorem buildRemoteMap_congr (f g : String → Option (List RemoteVideoState))
    (h : ∀ c, f c = g c ∨ (f c = none ∧ g c = some [])) :
    ∀ channels : List String, buildRemoteMap f channels = buildRemoteMap g channels
  | [] => rfl
  | ch :: rest => by
    rw [buildRemoteMap, buildRemoteMap]
    rcases h ch with he | ⟨hf, hg⟩
    · rw [he]
      exact buildRemoteMapAux_congr f g h rest _
    · rw [hf, hg]
      exact buildRemoteMapAux_congr f g h rest _

/-- C6 counterexample: a job with a future target instant (200 vs now 50) and
prior status "scheduled" whose per-job fetch returns nothing for its video id
(`get_video_status` returns None).  The claim says reconciliation falls back
to the job's own publish_datetime and treats it as still scheduled; the code
(the `if video_status:` body is simply skipped and no exception fires, so the
except-fallback never runs) excludes it unconditionally and leaves the record
untouched — the view is empty.  The same job under a raising fetch IS
included via the fallback, isolating the divergence to the returns-nothing
case. -/
theorem C6_notFound_counterexample :
    (get_jobs 50 (fun _ => some []) (fun _ _ => FetchResult.notFound) none
        (Store.mk [("j1", ⟨"j1", "u", some "c", some "v1", "T",
          some "scheduled", some 200, 0, none, ""⟩)])
        "u" (some "c")).1 = []
    ∧ (syncOneJob 50 (fun _ _ => FetchResult.notFound)
        ⟨"j1", "u", some "c", some "v1", "T", some "scheduled", some 200, 0,
          none, ""⟩).1 = false
    ∧ (syncOneJob 50 (fun _ _ => FetchResult.error)
        ⟨"j1", "u", some "c", some "v1", "T", some "scheduled", some 200, 0,
          none, ""⟩).1 = true := ⟨rfl, rfl, rfl⟩

/-- C6 (amended): the aggregate view never raises, and a fetch failure for
one channel degrades only that channel's contribution: a channel whose
scheduled-videos fetch raises contributes exactly as if it had returned the
empty list.  A job whose per-job status fetch RAISES is resolved from its own
record: it is included (as "scheduled") exactly when its own publish instant
is in the future and its prior persisted status was "scheduled" or
"uploaded", and is otherwise passed through unmodified and excluded.  A job
whose per-job status fetch returns NOTHING for its video id does not fall
back at all: it is unconditionally excluded and its record is passed through
unmodified, its own publish_datetime never consulted. -/
theorem C6_degraded_fallback (now : Int)
    (fetchScheduled : String → Option (List RemoteVideoState))
    (fetchStatus : String → String → FetchResult)
    (channelsResult : Option (List String)) (s : Store) (u : String)
    (reqChannel : Option String) (ch : String)
    (hch : fetchScheduled ch = none) :
    get_jobs now fetchScheduled fetchStatus channelsResult s u reqChannel
      = get_jobs now (fun c => if c = ch then some [] else fetchScheduled c)
          fetchStatus channelsResult s u reqChannel
    ∧ (∀ job : Job, truthy job.video_id = true → truthy job.channel_id = true →
        fetchStatus (job.channel_id.getD "") (job.video_id.getD "")
          = FetchResult.error →
        (((syncOneJob now fetchStatus job).1 = true ↔
            ∃ pt, job.publish_datetime = some pt ∧ now < pt
              ∧ (job.status = some "scheduled" ∨ job.status = some "uploaded"))
          ∧ ((syncOneJob now fetchStatus job).1 = true →
              (syncOneJob now fetchStatus job).2.job.status = some "scheduled")
          ∧ ((syncOneJob now fetchStatus job).1 = false →
              (syncOneJob now fetchStatus job).2.job = job)))
    ∧ ∀ job : Job, truthy job.video_id = true → truthy job.channel_id = true →
        fetchStatus (job.channel_id.getD "") (job.video_id.getD "")
          = FetchResult.notFound →
        (syncOneJob now fetchStatus job).1 = false
        ∧ (syncOneJob now fetchStatus job).2.job = job := by
  refine ⟨?_, ?_, ?_⟩
  · have hmap := buildRemoteMap_congr fetchScheduled
      (fun c => if c = ch then some [] else fetchScheduled c)
      (by
        intro c
        by_cases hc : c = ch
        · subst hc
          exact Or.inr ⟨hch, if_pos rfl⟩
        · exact Or.inl (if_neg hc).symm)
    simp only [get_jobs, hmap]
  · intro job htv htc hf
    cases hpd : job.publish_datetime with
    | none =>
      refine ⟨?_, ?_, ?_⟩ <;>
        simp [syncOneJob, htv, htc, hf, hpd, mkEntry]
    | some pt =>
      by_cases hc : now < pt ∧
          (job.status = some "scheduled" ∨ job.status = some "uploaded")
      · refine ⟨?_, ?_, ?_⟩ <;>
          simp [syncOneJob, htv, htc, hf, hpd, hc, mkEntry]
      · refine ⟨?_, ?_, ?_⟩ <;>
          simp [syncOneJob, htv, htc, hf, hpd, hc, mkEntry]
  · intro job htv htc hf
    constructor <;> simp [syncOneJob, htv, htc, hf, mkEntry]

/-- Closed instance of C6_degraded_fallback: one failing channel; a job with
a future target and prior status "scheduled" whose per-job fetch raises is
included via the fallback; the same job under a returns-nothing fetch is
excluded with its record unchanged. -/
theorem C6_degraded_fallback_witness :
    get_jobs 50 (fun _ => none) (fun _ _ => FetchResult.error) none
        (Store.mk [("j1", ⟨"j1", "u", some "c", some "v1", "T",
          some "scheduled", some 200, 0, none, ""⟩)])
        "u" (some "c")
      = get_jobs 50 (fun c => if c = "c" then some [] else none)
          (fun _ _ => FetchResult.error) none
          (Store.mk [("j1", ⟨"j1", "u", some "c", some "v1", "T",
            some "scheduled", some 200, 0, none, ""⟩)])
          "u" (some "c")
    ∧ ((syncOneJob 50 (fun _ _ => FetchResult.error)
        ⟨"j1", "u", some "c", some "v1", "T", some "scheduled", some 200, 0,
          none, ""⟩).1 = true ↔
        ∃ pt, (some 200 : Option Int) = some pt ∧ 50 < pt
          ∧ ((some "scheduled" : Option String) = some "scheduled"
             ∨ (some "scheduled" : Option String) = some "uploaded"))
    ∧ (syncOneJob 50 (fun _ _ => FetchResult.notFound)
        ⟨"j1", "u", some "c", some "v1", "T", some "scheduled", some 200, 0,
          none, ""⟩).1 = false
    ∧ (syncOneJob 50 (fun _ _ => FetchResult.notFound)
        ⟨"j1", "u", some "c", some "v1", "T", some "scheduled", some 200, 0,
          none, ""⟩).2.job
      = ⟨"j1", "u", some "c", some "v1", "T", some "scheduled", some 200, 0,
          none, ""⟩ := by
  have h := C6_degraded_fallback 50 (fun _ => none)
    (fun _ _ => FetchResult.error) none
    (Store.mk [("j1", ⟨"j1", "u", some "c", some "v1", "T",
      some "scheduled", some 200, 0, none, ""⟩)])
    "u" (some "c") "c" rfl
  have h2 := C6_degraded_fallback 50 (fun _ => none)
    (fun _ _ => FetchResult.notFound) none
    (Store.mk [("j1", ⟨"j1", "u", some "c", some "v1", "T",
      some "scheduled", some 200, 0, none, ""⟩)])
    "u" (some "c") "c" rfl
  have hnf := h2.2.2 ⟨"j1", "u", some "c", some "v1", "T", some "scheduled",
    some 200, 0, none, ""⟩ (by decide) (by decide) rfl
  exact ⟨h.1,
    (h.2.1 ⟨"j1", "u", some "c", some "v1", "T", some "scheduled", some 200,
      0, none, ""⟩ (by decide) (by decide) rfl).1,
    hnf.1, hnf.2⟩

theorem syncOneJob_fields (now : Int) (fetch : String → String → FetchResult)
    (job : Job) :
    (syncOneJob now fetch job).2.job.job_id = job.job_id
    ∧ (syncOneJob now fetch job).2.job.video_id = job.video_id
    ∧ (syncOneJob now fetch job).2.from_youtube = false := by
  refine ⟨?_, ?_, ?_⟩ <;>
    (rw [syncOneJob]; repeat' split) <;> rfl

theorem processJobs_origin (now : Int) (fetch : String → String → FetchResult) :
    ∀ (L : List Job) (m : List (String × RemoteVideoState)) (e : SyncedJob),
      e ∈ (processJobs now fetch L m).1 →
      ∃ j ∈ L, syncOneJob now fetch j = (true, e)
  | [], m, e, h => by simp [processJobs] at h
  | job :: rest, m, e, h => by
    simp only [processJobs] at h
    by_cases hr : (syncOneJob now fetch job).1 = true
    · rw [if_pos hr] at h
      rcases List.mem_cons.mp h with he | h'
      · refine ⟨job, List.mem_cons_self _ _, ?_⟩
        have : syncOneJob now fetch job
            = ((syncOneJob now fetch job).1, (syncOneJob now fetch job).2) := rfl
        rw [this, hr, ← he]
      · rcases processJobs_origin now fetch rest _ e h' with ⟨j, hj, hje⟩
        exact ⟨j, List.mem_cons_of_mem _ hj, hje⟩
    · rw [if_neg hr] at h
      rcases processJobs_origin now fetch rest m e h with ⟨j, hj, hje⟩
      exact ⟨j, List.mem_cons_of_mem _ hj, hje⟩

theorem mem_remoteOnly (now : Int) (u c : String) :
    ∀ (m : List (String × RemoteVideoState)) (e : SyncedJob),
      e ∈ remoteOnly now u c m →
      e.from_youtube = true ∧ ∃ p ∈ m, e.job.video_id = some p.1
  | [], e, h => by simp [remoteOnly] at h
  | (vid, vd) :: rest, e, h => by
    rw [remoteOnly] at h
    split at h
    · split at h
      · rcases List.mem_cons.mp h with he | h'
        · subst he
          exact ⟨rfl, (vid, vd), List.mem_cons_self _ _, rfl⟩
        · rcases mem_remoteOnly now u c rest e h' with ⟨h1, p, hp, h2⟩
          exact ⟨h1, p, List.mem_cons_of_mem _ hp, h2⟩
      · rcases mem_remoteOnly now u c rest e h with ⟨h1, p, hp, h2⟩
        exact ⟨h1, p, List.mem_cons_of_mem _ hp, h2⟩
    · rcases mem_remoteOnly now u c rest e h with ⟨h1, p, hp, h2⟩
      exact ⟨h1, p, List.mem_cons_of_mem _ hp, h2⟩

theorem nodup_user_job_ids (s : Store) (u : String) (hwf : wfStore s) :
    ((get_user_jobs s u).map Job.job_id).Nodup := by
  have h1 : List.Sublist (get_user_jobs s u) (s.jobs.map Prod.snd) :=
    List.filter_sublist _
  have h2 : List.Sublist ((get_user_jobs s u).map Job.job_id)
      ((s.jobs.map Prod.snd).map Job.job_id) := h1.map _
  rw [List.map_map] at h2
  have h3 : s.jobs.map (Job.job_id ∘ Prod.snd) = s.jobs.map Prod.fst :=
    List.map_congr_left (fun p hp => hwf.2 p hp)
  rw [h3] at h2
  exact h2.nodup hwf.1

/-- C2: for a job whose remote state is reachable, remote privacy "public", or
privacy in {private, unlisted} with a publishAt that is not in the future,
resolves the job to "published" and excludes it from the reconciled view: the
per-job flag is false, the rewritten status is published, and no job-derived
entry with this job's id occurs in the returned list. -/
theorem C2_published_excluded (now : Int)
    (fetchScheduled : String → Option (List RemoteVideoState))
    (fetchStatus : String → String → FetchResult)
    (channelsResult : Option (List String)) (s : Store) (u : String)
    (reqChannel : Option String) (job : Job) (vs : RemoteVideoState)
    (hwf : wfStore s) (hj : job ∈ get_user_jobs s u)
    (htv : truthy job.video_id = true) (htc : truthy job.channel_id = true)
    (hf : fetchStatus (job.channel_id.getD "") (job.video_id.getD "")
      = FetchResult.found vs)
    (hcond : vs.privacy_status = "public"
      ∨ ((vs.privacy_status = "private" ∨ vs.privacy_status = "unlisted")
          ∧ ∃ t, vs.publish_at = some t ∧ t ≤ now)) :
    (syncOneJob now fetchStatus job).1 = false
    ∧ (syncOneJob now fetchStatus job).2.job.status = some "published"
    ∧ ∀ e ∈ (get_jobs now fetchScheduled fetchStatus channelsResult s u
        reqChannel).1,
        e.from_youtube = false → e.job.job_id ≠ job.job_id := by
  have hmain : (syncOneJob now fetchStatus job).1 = false
      ∧ (syncOneJob now fetchStatus job).2.job.status = some "published" := by
    rcases hcond with hpub | ⟨hp, t, hat, hle⟩
    · rw [syncOneJob] at *
      constructor <;> simp [htv, htc, hf, hpub, mkEntry]
    · have hnp : ¬ vs.privacy_status = "public" := by
        rcases hp with h | h <;> rw [h] <;> decide
      rw [syncOneJob] at *
      constructor <;> simp [htv, htc, hf, hnp, hp, hat, hle, mkEntry]
  refine ⟨hmain.1, hmain.2, ?_⟩
  intro e he hefy heid
  rw [get_jobs] at he
  simp only at he
  rw [mem_sortJobs, List.mem_append] at he
  rcases he with he | he
  · rcases processJobs_origin now fetchStatus _ _ e he with ⟨j', hj', hje⟩
    have hid : j'.job_id = e.job.job_id := by
      have := (syncOneJob_fields now fetchStatus j').1
      rw [hje] at this
      exact this.symm
    have hjj : j' = job :=
      List.inj_on_of_nodup_map (nodup_user_job_ids s u hwf) hj' hj
        (by rw [hid, heid])
    rw [hjj] at hje
    rw [hje] at hmain
    simp at hmain
  · have := (mem_remoteOnly now u _ _ e he).1
    rw [hefy] at this
    exact Bool.false_ne_true this

/-- Closed instance of C2_published_excluded: a public remote video, and the
view contains no job-derived entry for it. -/
theorem C2_published_excluded_witness :
    (syncOneJob 50 (fun _ _ => FetchResult.found ⟨"v1", "public", none, "T", ""⟩)
      ⟨"j1", "u", some "c", some "v1", "T", some "scheduled", some 200, 0,
        none, ""⟩).1 = false
    ∧ (syncOneJob 50
        (fun _ _ => FetchResult.found ⟨"v1", "public", none, "T", ""⟩)
        ⟨"j1", "u", some "c", some "v1", "T", some "scheduled", some 200, 0,
          none, ""⟩).2.job.status = some "published"
    ∧ ∀ e ∈ (get_jobs 50 (fun _ => some [])
        (fun _ _ => FetchResult.found ⟨"v1", "public", none, "T", ""⟩) none
        (Store.mk [("j1", ⟨"j1", "u", some "c", some "v1", "T",
          some "scheduled", some 200, 0, none, ""⟩)])
        "u" (some "c")).1,
        e.from_youtube = false → e.job.job_id ≠ "j1" := by
  exact C2_published_excluded 50 (fun _ => some [])
    (fun _ _ => FetchResult.found ⟨"v1", "public", none, "T", ""⟩) none
    (Store.mk [("j1", ⟨"j1", "u", some "c", some "v1", "T",
      some "scheduled", some 200, 0, none, ""⟩)])
    "u" (some "c")
    ⟨"j1", "u", some "c", some "v1", "T", some "scheduled", some 200, 0,
      none, ""⟩
    ⟨"v1", "public", none, "T", ""⟩
    (by constructor
        · decide
        · intro p hp
          simp at hp
          rw [hp])
    (by decide) (by decide) (by decide) rfl (Or.inl rfl)

/-- C4 counterexample: an included job with no publish_datetime (its remote
state is private with a future publishAt, so it is included regardless) sorts
before a remote-only entry with instant 70 — the missing-instant entry comes
first, not last, because the Python sort key for a missing instant is the
empty string. -/
theorem C4_missing_first_counterexample :
    (get_jobs 50 (fun _ => some [⟨"v2", "private", some 70, "T2", ""⟩])
        (fun _ _ => FetchResult.found ⟨"v1", "private", some 100, "T", ""⟩)
        none
        (Store.mk [("j1", ⟨"j1", "u", some "c", some "v1", "T",
          some "scheduled", none, 0, none, ""⟩)])
        "u" (some "c")).1.map (fun e => e.job.publish_datetime)
      = [none, some 70] := rfl

/-- C4 (amended): the reconciled view is sorted non-decreasing by the
publish_datetime sort key, where a missing instant compares below every
present instant (it sorts first, not last), and the sort is stable: entries
with equal keys keep their pre-sort discovery order. -/
theorem C4_sorted_missing_first :
    (∀ now fetchScheduled fetchStatus channelsResult s u reqChannel,
      ((get_jobs now fetchScheduled fetchStatus channelsResult s u
        reqChannel).1).Pairwise
        (fun a b => keyLE (entryKey a) (entryKey b) = true))
    ∧ (∀ k : Option Int, keyLE none k = true)
    ∧ ∀ (l : List SyncedJob) (k : Option Int),
        (sortJobs l).filter (fun e => decide (entryKey e = k))
          = l.filter (fun e => decide (entryKey e = k)) := by
  refine ⟨?_, fun k => rfl, sortJobs_stable⟩
  intro now fetchScheduled fetchStatus channelsResult s u reqChannel
  simp only [get_jobs]
  exact sortJobs_pairwise _

/-! Key-uniqueness bookkeeping for the remote map, feeding the
at-most-one-entry-per-video-id invariant. -/

theorem mem_keys_setKey (k : String) (v : RemoteVideoState) :
    ∀ (m : List (String × RemoteVideoState)) (a : String),
      a ∈ (setKey k v m).map Prod.fst ↔ a = k ∨ a ∈ m.map Prod.fst
  | [], a => by simp [setKey]
  | p :: rest, a => by
    rw [setKey]
    by_cases hp : p.1 = k
    · rw [if_pos hp]
      simp [hp]
    · rw [if_neg hp]
      simp [mem_keys_setKey k v rest a]
      tauto

theorem nodup_keys_setKey (k : String) (v : RemoteVideoState) :
    ∀ m : List (String × RemoteVideoState),
      (m.map Prod.fst).Nodup → ((setKey k v m).map Prod.fst).Nodup
  | [], _ => by simp [setKey]
  | p :: rest, hnd => by
    rw [List.map_cons, List.nodup_cons] at hnd
    rw [setKey]
    by_cases hp : p.1 = k
    · rw [if_pos hp]
      rw [List.map_cons, List.nodup_cons]
      exact ⟨by rw [← hp]; exact hnd.1, hnd.2⟩
    · rw [if_neg hp]
      rw [List.map_cons, List.nodup_cons]
      constructor
      · rw [mem_keys_setKey]
        rintro (he | hm)
        · exact hp he
        · exact hnd.1 hm
      · exact nodup_keys_setKey k v rest hnd.2

theorem nodup_keys_foldl_setKey :
    ∀ (vids : List RemoteVideoState) (m : List (String × RemoteVideoState)),
      (m.map Prod.fst).Nodup →
      ((vids.foldl (fun acc v => setKey v.video_id v acc) m).map Prod.fst).Nodup
  | [], m, h => h
  | v :: rest, m, h =>
    nodup_keys_foldl_setKey rest (setKey v.video_id v m)
      (nodup_keys_setKey v.video_id v m h)

theorem nodup_keys_addChannel (m : List (String × RemoteVideoState))
    (r : Option (List RemoteVideoState)) (h : (m.map Prod.fst).Nodup) :
    ((addChannel m r).map Prod.fst).Nodup := by
  cases r with
  | none => exact h
  | some vids => exact nodup_keys_foldl_setKey vids m h

theorem nodup_keys_buildRemoteMapAux
    (f : String → Option (List RemoteVideoState)) :
    ∀ (channels : List String) (m : List (String × RemoteVideoState)),
      (m.map Prod.fst).Nodup →
      ((buildRemoteMap.buildRemoteMapAux f m channels).map Prod.fst).Nodup
  | [], m, h => h
  | ch :: rest, m, h =>
    nodup_keys_buildRemoteMapAux f rest (addChannel m (f ch))
      (nodup_keys_addChannel m (f ch) h)

theorem nodup_keys_buildRemoteMap (f : String → Option (List RemoteVideoState)) :
    ∀ channels : List String,
      ((buildRemoteMap f channels).map Prod.fst).Nodup
  | [] => by simp [buildRemoteMap]
  | ch :: rest =>
    nodup_keys_buildRemoteMapAux f rest (addChannel [] (f ch))
      (nodup_keys_addChannel [] (f ch) (by simp))

theorem not_mem_keys_removeKey (k : String)
    (m : List (String × RemoteVideoState)) :
    k ∉ (removeKey k m).map Prod.fst := by
  intro h
  rcases List.mem_map.mp h with ⟨p, hp, hpk⟩
  have := List.of_mem_filter hp
  rw [hpk] at this
  simp at this

theorem keys_removeKey_sublist (k : String)
    (m : List (String × RemoteVideoState)) :
    List.Sublist ((removeKey k m).map Prod.fst) (m.map Prod.fst) :=
  (List.filter_sublist m).map Prod.fst

theorem processJobs_keys_sublist (now : Int)
    (fetch : String → String → FetchResult) :
    ∀ (L : List Job) (m : List (String × RemoteVideoState)),
      List.Sublist ((processJobs now fetch L m).2.map Prod.fst)
        (m.map Prod.fst)
  | [], m => by simp [processJobs]
  | job :: rest, m => by
    simp only [processJobs]
    by_cases hr : (syncOneJob now fetch job).1 = true
    · rw [if_pos hr]
      cases hv : job.video_id with
      | none => exact processJobs_keys_sublist now fetch rest m
      | some v =>
        exact (processJobs_keys_sublist now fetch rest (removeKey v m)).trans
          (keys_removeKey_sublist v m)
    · rw [if_neg hr]
      exact processJobs_keys_sublist now fetch rest m

theorem processJobs_count (now : Int) (fetch : String → String → FetchResult)
    (v : String) :
    ∀ (L : List Job) (m : List (String × RemoteVideoState)),
      (L.filterMap Job.video_id).Nodup →
      ((processJobs now fetch L m).1.countP
          (fun e => decide (e.job.video_id = some v)) ≤ 1
        ∧ (1 ≤ (processJobs now fetch L m).1.countP
            (fun e => decide (e.job.video_id = some v)) →
           v ∉ (processJobs now fetch L m).2.map Prod.fst))
  | [], m, _ => by simp [processJobs]
  | job :: rest, m, hnd => by
    have htail : (rest.filterMap Job.video_id).Nodup := by
      rw [List.filterMap_cons] at hnd
      cases hjv : job.video_id with
      | none => rw [hjv] at hnd; exact hnd
      | some w => rw [hjv] at hnd; exact (List.nodup_cons.mp hnd).2
    simp only [processJobs]
    by_cases hr : (syncOneJob now fetch job).1 = true
    · rw [if_pos hr]
      have hpres : (syncOneJob now fetch job).2.job.video_id = job.video_id :=
        (syncOneJob_fields now fetch job).2.1
      by_cases hjv : job.video_id = some v
      · -- this job carries the video id v: it is the unique contributor
        have hvnotin : v ∉ rest.filterMap Job.video_id := by
          rw [List.filterMap_cons, hjv] at hnd
          exact (List.nodup_cons.mp hnd).1
        have hzero : ∀ mm : List (String × RemoteVideoState),
            (processJobs now fetch rest mm).1.countP
              (fun e => decide (e.job.video_id = some v)) = 0 := by
          intro mm
          rw [List.countP_eq_zero]
          intro e he
          rcases processJobs_origin now fetch rest mm e he with ⟨j', hj', hje⟩
          have hev : e.job.video_id = j'.video_id := by
            have hp := (syncOneJob_fields now fetch j').2.1
            rw [hje] at hp
            exact hp
          simp only [decide_eq_true_eq, hev]
          intro hv
          exact hvnotin (List.mem_filterMap.mpr ⟨j', hj', hv⟩)
        constructor
        · rw [List.countP_cons, hzero]
          simp [hpres, hjv]
        · intro _ hmem
          rw [hjv] at hmem
          exact not_mem_keys_removeKey v m
            ((processJobs_keys_sublist now fetch rest (removeKey v m)).mem hmem)
      · -- a different (or no) video id: the head entry does not count
        have hhead : decide ((syncOneJob now fetch job).2.job.video_id = some v)
            = false := by
          simp [hpres, hjv]
        cases hmv : job.video_id with
        | none =>
          have ih := processJobs_count now fetch v rest m htail
          constructor
          · rw [List.countP_cons]
            simp only [hhead, Bool.false_eq_true, if_false, Nat.add_zero]
            exact ih.1
          · intro h1 hmem
            rw [List.countP_cons] at h1
            simp only [hhead, Bool.false_eq_true, if_false, Nat.add_zero] at h1
            exact ih.2 h1 hmem
        | some w =>
          have ih := processJobs_count now fetch v rest (removeKey w m) htail
          constructor
          · rw [List.countP_cons]
            simp only [hhead, Bool.false_eq_true, if_false, Nat.add_zero]
            exact ih.1
          · intro h1 hmem
            rw [List.countP_cons] at h1
            simp only [hhead, Bool.false_eq_true, if_false, Nat.add_zero] at h1
            exact ih.2 h1 hmem
    · rw [if_neg hr]
      exact processJobs_count now fetch v rest m htail

theorem remoteOnly_count (now : Int) (u c v : String) :
    ∀ m : List (String × RemoteVideoState),
      (m.map Prod.fst).Nodup →
      ((remoteOnly now u c m).countP
          (fun e => decide (e.job.video_id = some v)) ≤ 1
        ∧ (1 ≤ (remoteOnly now u c m).countP
            (fun e => decide (e.job.video_id = some v)) →
           v ∈ m.map Prod.fst))
  | [], _ => by simp [remoteOnly]
  | (vid, vd) :: rest, hnd => by
    rw [List.map_cons, List.nodup_cons] at hnd
    have ih := remoteOnly_count now u c v rest hnd.2
    rw [remoteOnly]
    split
    · split
      · -- future publishAt: the head entry is synthesized
        by_cases hv : vid = v
        · subst hv
          have hzero : (remoteOnly now u c rest).countP
              (fun e => decide (e.job.video_id = some vid)) = 0 := by
            rw [List.countP_eq_zero]
            intro e he
            rcases mem_remoteOnly now u c rest e he with ⟨_, p, hp, hpv⟩
            simp only [decide_eq_true_eq, hpv, Option.some.injEq]
            intro hcontra
            have hmem : p.1 ∈ rest.map Prod.fst :=
              List.mem_map_of_mem Prod.fst hp
            rw [hcontra] at hmem
            exact hnd.1 hmem
          constructor
          · rw [List.countP_cons, hzero]
            simp
          · intro _
            simp
        · constructor
          · rw [List.countP_cons]
            simp only [decide_eq_true_eq, Option.some.injEq]
            have : ¬ (vid = v) := hv
            simp [this]
            exact ih.1
          · intro h1
            rw [List.countP_cons] at h1
            have hvd : decide ((some vid : Option String) = some v) = false := by
              simp [hv]
            simp only [hvd, Bool.false_eq_true, if_false, Nat.add_zero] at h1
            simp only [List.map_cons, List.mem_cons]
            exact Or.inr (ih.2 h1)
      · -- publishAt not in the future: skipped
        refine ⟨ih.1, ?_⟩
        intro h1
        simp only [List.map_cons, List.mem_cons]
        exact Or.inr (ih.2 h1)
    · -- no publishAt: skipped
      refine ⟨ih.1, ?_⟩
      intro h1
      simp only [List.map_cons, List.mem_cons]
      exact Or.inr (ih.2 h1)

theorem reconcile_at_most_one (now : Int) (fetch : String → String → FetchResult)
    (jobs : List Job) (m0 : List (String × RemoteVideoState)) (u c : String)
    (hnd : (jobs.filterMap Job.video_id).Nodup)
    (hm0 : (m0.map Prod.fst).Nodup) (v : String) :
    ((sortJobs ((processJobs now fetch jobs m0).1
        ++ remoteOnly now u c (processJobs now fetch jobs m0).2)).countP
      (fun e => decide (e.job.video_id = some v))) ≤ 1 := by
  rw [countP_sortJobs, List.countP_append]
  have hpc := processJobs_count now fetch v jobs m0 hnd
  have hrem : (((processJobs now fetch jobs m0).2).map Prod.fst).Nodup :=
    (processJobs_keys_sublist now fetch jobs m0).nodup hm0
  have hro := remoteOnly_count now u c v _ hrem
  by_cases h1 : 1 ≤ (processJobs now fetch jobs m0).1.countP
      (fun e => decide (e.job.video_id = some v))
  · have hv := hpc.2 h1
    have hz : (remoteOnly now u c (processJobs now fetch jobs m0).2).countP
        (fun e => decide (e.job.video_id = some v)) = 0 := by
      by_contra hc
      exact hv (hro.2 (by omega))
    omega
  · have hz : (processJobs now fetch jobs m0).1.countP
        (fun e => decide (e.job.video_id = some v)) = 0 := by omega
    have := hro.1
    omega

/-- C3 counterexample: a Job matches a RemoteVideoState in the remote map
(video id v1), but its per-job status fetch raises and the fallback excludes
it (its own target instant is past and its status is "published").  The
matched entry is not removed from the remote map — removal happens only on
inclusion — so a remote-only entry for v1 IS synthesized: the removal is not
performed "regardless of inclusion/exclusion". -/
theorem C3_not_removed_counterexample :
    (get_jobs 50 (fun _ => some [⟨"v1", "private", some 100, "T", ""⟩])
        (fun _ _ => FetchResult.error) none
        (Store.mk [("j1", ⟨"j1", "u", some "c", some "v1", "T",
          some "published", some 0, 0, none, ""⟩)])
        "u" (some "c")).1.map
        (fun e => (e.job.job_id, e.job.video_id, e.from_youtube))
      = [("youtube_v1", some "v1", true)]
    ∧ (get_user_jobs
        (Store.mk [("j1", ⟨"j1", "u", some "c", some "v1", "T",
          some "published", some 0, 0, none, ""⟩)]) "u").map Job.video_id
      = [some "v1"] := ⟨rfl, rfl⟩

/-- C3 (amended): when the user's jobs carry pairwise-distinct video ids, the
reconciled view still contains at most one entry per video id (an included
matched job removes its remote-map entry, and an excluded job contributes no
entry of its own).  However, the matched entry is removed from the remote map
only when the job is included: an excluded job's matching remote state, if its
publishAt is in the future, is synthesized as a remote-only entry. -/
theorem C3_at_most_one_per_video (now : Int)
    (fetchScheduled : String → Option (List RemoteVideoState))
    (fetchStatus : String → String → FetchResult)
    (channelsResult : Option (List String)) (s : Store) (u : String)
    (reqChannel : Option String)
    (hnd : ((get_user_jobs s u).filterMap Job.video_id).Nodup) (v : String) :
    ((get_jobs now fetchScheduled fetchStatus channelsResult s u
        reqChannel).1.countP
      (fun e => decide (e.job.video_id = some v))) ≤ 1 := by
  simp only [get_jobs]
  exact reconcile_at_most_one now fetchStatus (get_user_jobs s u) _ u _ hnd
    (nodup_keys_buildRemoteMap fetchScheduled _) v

/-- Closed instance of C3_at_most_one_per_video on the counterexample input:
exactly one entry carries video id v1. -/
theorem C3_at_most_one_per_video_witness :
    ((get_jobs 50 (fun _ => some [⟨"v1", "private", some 100, "T", ""⟩])
        (fun _ _ => FetchResult.error) none
        (Store.mk [("j1", ⟨"j1", "u", some "c", some "v1", "T",
          some "published", some 0, 0, none, ""⟩)])
        "u" (some "c")).1.countP
      (fun e => decide (e.job.video_id = some "v1"))) ≤ 1 :=
  C3_at_most_one_per_video 50
    (fun _ => some [⟨"v1", "private", some 100, "T", ""⟩])
    (fun _ _ => FetchResult.error) none
    (Store.mk [("j1", ⟨"j1", "u", some "c", some "v1", "T",
      some "published", some 0, 0, none, ""⟩)])
    "u" (some "c") (by decide) "v1"

/-! Lemmas for the sync endpoint: after one pass every reachable job carries
the remote-derived status, and a pass over already-synced jobs writes and
counts nothing. -/

theorem applyUpdate_self_vid (j : Job) (st : String) :
    applyUpdate j st none j.video_id = { j with status := some st } := by
  cases hv : j.video_id <;> simp [applyUpdate, truthy, hv]

theorem mem_updateEntries_of_ne (jobId st : String) (em vid : Option String) :
    ∀ (jobs : List (String × Job)) (p : String × Job),
      p ∈ jobs → p.1 ≠ jobId → p ∈ updateEntries jobId st em vid jobs
  | q :: rest, p, hp, hne => by
    rw [updateEntries]
    rcases List.mem_cons.mp hp with he | hm
    · subst he
      rw [if_neg hne]
      exact List.mem_cons_self _ _
    · by_cases hq : q.1 = jobId
      · rw [if_pos hq]
        exact List.mem_cons_of_mem _
          (mem_updateEntries_of_ne jobId st em vid rest p hm hne)
      · rw [if_neg hq]
        exact List.mem_cons_of_mem _
          (mem_updateEntries_of_ne jobId st em vid rest p hm hne)

theorem mem_updateEntries_elim (jobId st : String) (em vid : Option String) :
    ∀ (jobs : List (String × Job)) (p : String × Job),
      p ∈ updateEntries jobId st em vid jobs →
      ∃ q ∈ jobs,
        p = if q.1 = jobId then (q.1, applyUpdate q.2 st em vid) else q
  | [], p, hp => by simp [updateEntries] at hp
  | q :: rest, p, hp => by
    rw [updateEntries] at hp
    by_cases hq : q.1 = jobId
    · rw [if_pos hq] at hp
      rcases List.mem_cons.mp hp with he | hm
      · exact ⟨q, List.mem_cons_self _ _, by rw [if_pos hq, he]⟩
      · rcases mem_updateEntries_elim jobId st em vid rest p hm with ⟨r, hr, he⟩
        exact ⟨r, List.mem_cons_of_mem _ hr, he⟩
    · rw [if_neg hq] at hp
      rcases List.mem_cons.mp hp with he | hm
      · exact ⟨q, List.mem_cons_self _ _, by rw [if_neg hq, he]⟩
      · rcases mem_updateEntries_elim jobId st em vid rest p hm with ⟨r, hr, he⟩
        exact ⟨r, List.mem_cons_of_mem _ hr, he⟩

theorem key_unique {jobs : List (String × Job)}
    (hnd : (jobs.map Prod.fst).Nodup) {k : String} {a b : Job}
    (ha : (k, a) ∈ jobs) (hb : (k, b) ∈ jobs) : a = b := by
  have := List.inj_on_of_nodup_map hnd ha hb rfl
  exact congrArg Prod.snd this

theorem wf_update (s : Store) (jobId st : String) (em vid : Option String)
    (h : ∀ p ∈ s.jobs, p.2.job_id = p.1) :
    ∀ p ∈ (update_job_status s jobId st em vid).jobs, p.2.job_id = p.1 := by
  intro p hp
  rcases mem_updateEntries_elim jobId st em vid s.jobs p hp with ⟨q, hq, he⟩
  by_cases hqe : q.1 = jobId
  · rw [if_pos hqe] at he
    rw [he]
    exact h q hq
  · rw [if_neg hqe] at he
    rw [he]
    exact h q hq

theorem syncLoop_cons_not_truthy (now : Int)
    (fetch : String → String → FetchResult) (job : Job) (rest : List Job)
    (s : Store)
    (h : ¬ (truthy job.video_id = true ∧ truthy job.channel_id = true)) :
    syncLoop now fetch (job :: rest) s = syncLoop now fetch rest s := by
  rw [syncLoop, if_neg h]

theorem syncLoop_cons_error (now : Int) (fetch : String → String → FetchResult)
    (job : Job) (rest : List Job) (s : Store)
    (htr : truthy job.video_id = true ∧ truthy job.channel_id = true)
    (hfr : fetch (job.channel_id.getD "") (job.video_id.getD "")
      = FetchResult.error) :
    syncLoop now fetch (job :: rest) s = syncLoop now fetch rest s := by
  rw [syncLoop, if_pos htr, hfr]

theorem syncLoop_cons_notFound (now : Int)
    (fetch : String → String → FetchResult) (job : Job) (rest : List Job)
    (s : Store)
    (htr : truthy job.video_id = true ∧ truthy job.channel_id = true)
    (hfr : fetch (job.channel_id.getD "") (job.video_id.getD "")
      = FetchResult.notFound) :
    syncLoop now fetch (job :: rest) s = syncLoop now fetch rest s := by
  rw [syncLoop, if_pos htr, hfr]

theorem syncLoop_cons_found (now : Int) (fetch : String → String → FetchResult)
    (job : Job) (rest : List Job) (s : Store) (vs : RemoteVideoState)
    (htr : truthy job.video_id = true ∧ truthy job.channel_id = true)
    (hfr : fetch (job.channel_id.getD "") (job.video_id.getD "")
      = FetchResult.found vs) :
    syncLoop now fetch (job :: rest) s =
      if job.status ≠ some (computeSyncStatus now vs) then
        ((syncLoop now fetch rest (update_job_status s job.job_id
            (computeSyncStatus now vs) none job.video_id)).1 + 1,
         (syncLoop now fetch rest (update_job_status s job.job_id
            (computeSyncStatus now vs) none job.video_id)).2)
      else syncLoop now fetch rest s := by
  rw [syncLoop, if_pos htr, hfr]

theorem cov_promote {now : Int} {fetch : String → String → FetchResult}
    {u : String} {job : Job} {rest : List Job} {s : Store}
    (hnd : (storeKeys s).Nodup) (hwf : ∀ p ∈ s.jobs, p.2.job_id = p.1)
    (hinhead : (job.job_id, job) ∈ s.jobs)
    (hsync : syncedJob now fetch job)
    (hcov : ∀ p ∈ s.jobs, p.2.user_id = u →
      p.2.job_id ∈ (job :: rest).map Job.job_id ∨ syncedJob now fetch p.2) :
    ∀ p ∈ s.jobs, p.2.user_id = u →
      p.2.job_id ∈ rest.map Job.job_id ∨ syncedJob now fetch p.2 := by
  intro q hq hqu
  rcases hcov q hq hqu with hm | hs
  · rw [List.map_cons] at hm
    rcases List.mem_cons.mp hm with he | hm'
    · have hqp : (q.2.job_id, q.2) ∈ s.jobs := by
        rw [hwf q hq]
        exact hq
      rw [he] at hqp
      right
      rw [key_unique hnd hqp hinhead]
      exact hsync
    · exact Or.inl hm'
  · exact Or.inr hs

theorem syncLoop_post (now : Int) (fetch : String → String → FetchResult)
    (u : String) :
    ∀ (L : List Job) (s : Store),
      (storeKeys s).Nodup →
      (∀ p ∈ s.jobs, p.2.job_id = p.1) →
      (∀ j ∈ L, (j.job_id, j) ∈ s.jobs) →
      ((L.map Job.job_id).Nodup) →
      (∀ p ∈ s.jobs, p.2.user_id = u →
        p.2.job_id ∈ L.map Job.job_id ∨ syncedJob now fetch p.2) →
      ∀ p ∈ (syncLoop now fetch L s).2.jobs, p.2.user_id = u →
        syncedJob now fetch p.2
  | [], s, hnd, hwf, hin, hLnd, hcov, p, hp, hu => by
    rcases hcov p hp hu with hfalse | hs
    · simp at hfalse
    · exact hs
  | job :: rest, s, hnd, hwf, hin, hLnd, hcov, p, hp, hu => by
    have hLtail : (rest.map Job.job_id).Nodup :=
      (List.nodup_cons.mp (by simpa using hLnd)).2
    have hheadnotin : job.job_id ∉ rest.map Job.job_id :=
      (List.nodup_cons.mp (by simpa using hLnd)).1
    have hintail : ∀ j ∈ rest, (j.job_id, j) ∈ s.jobs :=
      fun j hj => hin j (List.mem_cons_of_mem _ hj)
    have hinhead : (job.job_id, job) ∈ s.jobs := hin job (List.mem_cons_self _ _)
    by_cases htr : truthy job.video_id = true ∧ truthy job.channel_id = true
    · cases hfr : fetch (job.channel_id.getD "") (job.video_id.getD "") with
      | error =>
        have hsync : syncedJob now fetch job := by
          intro vs' _ _ hf'
          rw [hfr] at hf'
          cases hf'
        rw [syncLoop_cons_error now fetch job rest s htr hfr] at hp
        exact syncLoop_post now fetch u rest s hnd hwf hintail hLtail
          (cov_promote hnd hwf hinhead hsync hcov) p hp hu
      | notFound =>
        have hsync : syncedJob now fetch job := by
          intro vs' _ _ hf'
          rw [hfr] at hf'
          cases hf'
        rw [syncLoop_cons_notFound now fetch job rest s htr hfr] at hp
        exact syncLoop_post now fetch u rest s hnd hwf hintail hLtail
          (cov_promote hnd hwf hinhead hsync hcov) p hp hu
      | found vs =>
        rw [syncLoop_cons_found now fetch job rest s vs htr hfr] at hp
        by_cases hst : job.status ≠ some (computeSyncStatus now vs)
        · -- write-back branch
          rw [if_pos hst] at hp
          have hnd' : (storeKeys (update_job_status s job.job_id
              (computeSyncStatus now vs) none job.video_id)).Nodup := by
            rw [storeKeys_update]
            exact hnd
          have hwf' := wf_update s job.job_id (computeSyncStatus now vs)
            none job.video_id hwf
          have hin' : ∀ j ∈ rest, (j.job_id, j) ∈ (update_job_status s
              job.job_id (computeSyncStatus now vs) none job.video_id).jobs := by
            intro j hj
            exact mem_updateEntries_of_ne _ _ _ _ s.jobs (j.job_id, j)
              (hintail j hj)
              (by
                intro he
                exact hheadnotin (he ▸ List.mem_map_of_mem Job.job_id hj))
          have hcov' : ∀ q ∈ (update_job_status s job.job_id
              (computeSyncStatus now vs) none job.video_id).jobs,
              q.2.user_id = u →
              q.2.job_id ∈ rest.map Job.job_id ∨ syncedJob now fetch q.2 := by
            intro q hq hqu
            rcases mem_updateEntries_elim _ _ _ _ s.jobs q hq with ⟨r, hr, he⟩
            by_cases hre : r.1 = job.job_id
            · rw [if_pos hre] at he
              have hr2 : r.2 = job := by
                have hrp : (r.2.job_id, r.2) ∈ s.jobs := by
                  rw [hwf r hr]
                  exact hr
                rw [hwf r hr, hre] at hrp
                exact key_unique hnd hrp hinhead
              right
              rw [he, hr2, applyUpdate_self_vid]
              intro vs' htv' htc' hf'
              rw [hfr] at hf'
              cases hf'
              rfl
            · rw [if_neg hre] at he
              have hqu' : r.2.user_id = u := by
                rw [he] at hqu
                exact hqu
              rcases hcov r hr hqu' with hm | hs
              · rw [List.map_cons] at hm
                rcases List.mem_cons.mp hm with hh | hm'
                · exact absurd ((hwf r hr).symm.trans hh) hre
                · left
                  rw [he]
                  exact hm'
              · right
                rw [he]
                exact hs
          exact syncLoop_post now fetch u rest _ hnd' hwf' hin' hLtail hcov'
            p hp hu
        · -- already carries the derived status
          rw [if_neg hst] at hp
          have hsteq : job.status = some (computeSyncStatus now vs) := by
            by_contra hc
            exact hst hc
          have hsync : syncedJob now fetch job := by
            intro vs' _ _ hf'
            rw [hfr] at hf'
            cases hf'
            exact hsteq
          exact syncLoop_post now fetch u rest s hnd hwf hintail hLtail
            (cov_promote hnd hwf hinhead hsync hcov) p hp hu
    · -- not both video id and channel id truthy: the job is skipped
      have hsync : syncedJob now fetch job := by
        intro vs' htv' htc' _
        exact absurd ⟨htv', htc'⟩ htr
      rw [syncLoop_cons_not_truthy now fetch job rest s htr] at hp
      exact syncLoop_post now fetch u rest s hnd hwf hintail hLtail
        (cov_promote hnd hwf hinhead hsync hcov) p hp hu

theorem syncLoop_noop (now : Int) (fetch : String → String → FetchResult) :
    ∀ (L : List Job) (s : Store), (∀ j ∈ L, syncedJob now fetch j) →
      syncLoop now fetch L s = (0, s)
  | [], s, _ => rfl
  | job :: rest, s, h => by
    have hrest : ∀ j ∈ rest, syncedJob now fetch j :=
      fun j hjm => h j (List.mem_cons_of_mem _ hjm)
    by_cases htr : truthy job.video_id = true ∧ truthy job.channel_id = true
    · cases hfr : fetch (job.channel_id.getD "") (job.video_id.getD "") with
      | error =>
        rw [syncLoop_cons_error now fetch job rest s htr hfr]
        exact syncLoop_noop now fetch rest s hrest
      | notFound =>
        rw [syncLoop_cons_notFound now fetch job rest s htr hfr]
        exact syncLoop_noop now fetch rest s hrest
      | found vs =>
        have hst : job.status = some (computeSyncStatus now vs) :=
          h job (List.mem_cons_self _ _) vs htr.1 htr.2 hfr
        rw [syncLoop_cons_found now fetch job rest s vs htr hfr,
          if_neg (not_not_intro hst)]
        exact syncLoop_noop now fetch rest s hrest
    · rw [syncLoop_cons_not_truthy now fetch job rest s htr]
      exact syncLoop_noop now fetch rest s hrest

theorem sync_post_store (now : Int) (fetch : String → String → FetchResult)
    (s : Store) (u : String) (hwf : wfStore s) :
    ∀ p ∈ (sync_jobs_with_youtube now fetch s u).2.jobs, p.2.user_id = u →
      syncedJob now fetch p.2 := by
  obtain ⟨hnd, hwff⟩ := hwf
  have hc3 : ∀ j ∈ get_user_jobs s u, (j.job_id, j) ∈ s.jobs := by
    intro j hj
    rw [get_user_jobs] at hj
    rcases List.mem_filter.mp hj with ⟨hjm, _⟩
    rcases List.mem_map.mp hjm with ⟨p, hp, hpe⟩
    subst hpe
    rw [hwff p hp]
    exact hp
  have hc4 := nodup_user_job_ids s u ⟨hnd, hwff⟩
  have hc5 : ∀ p ∈ s.jobs, p.2.user_id = u →
      p.2.job_id ∈ (get_user_jobs s u).map Job.job_id
        ∨ syncedJob now fetch p.2 := by
    intro p hp hu
    left
    apply List.mem_map_of_mem
    rw [get_user_jobs]
    refine List.mem_filter.mpr ⟨List.mem_map_of_mem _ hp, ?_⟩
    simp [hu]
  exact syncLoop_post now fetch u (get_user_jobs s u) s hnd hwff hc3 hc4 hc5

/-- C7: with a fixed remote state and current time, a second sync call right
after a first one reports a changed-job count of 0 — after the first pass
every job the sync can reach already carries the remote-derived status, so the
second pass writes nothing. -/
theorem C7_sync_idempotent (now : Int) (fetch : String → String → FetchResult)
    (s : Store) (u : String) (hwf : wfStore s) :
    (sync_jobs_with_youtube now fetch
      (sync_jobs_with_youtube now fetch s u).2 u).1 = 0 := by
  have hpost := sync_post_store now fetch s u hwf
  have hall : ∀ j ∈ get_user_jobs (sync_jobs_with_youtube now fetch s u).2 u,
      syncedJob now fetch j := by
    intro j hj
    rw [get_user_jobs] at hj
    rcases List.mem_filter.mp hj with ⟨hjm, hju⟩
    rcases List.mem_map.mp hjm with ⟨p, hp, hpe⟩
    subst hpe
    exact hpost p hp (by simpa using hju)
  rw [sync_jobs_with_youtube, syncLoop_noop now fetch _ _ hall]

/-- Closed instance of C7_sync_idempotent on a one-job store whose persisted
status disagrees with the remote state: the first call rewrites it, the second
call counts 0. -/
theorem C7_sync_idempotent_witness :
    (sync_jobs_with_youtube 50
      (fun _ _ => FetchResult.found ⟨"v1", "private", some 100, "T", ""⟩)
      (sync_jobs_with_youtube 50
        (fun _ _ => FetchResult.found ⟨"v1", "private", some 100, "T", ""⟩)
        (Store.mk [("j1", ⟨"j1", "u", some "c", some "v1", "T",
          some "published", some 200, 0, none, ""⟩)]) "u").2 "u").1 = 0 :=
  C7_sync_idempotent 50
    (fun _ _ => FetchResult.found ⟨"v1", "private", some 100, "T", ""⟩)
    (Store.mk [("j1", ⟨"j1", "u", some "c", some "v1", "T",
      some "published", some 200, 0, none, ""⟩)]) "u"
    (by constructor
        · decide
        · intro p hp
          simp at hp
          rw [hp])

/-- C8 (amended): persisted status is not monotone and has no terminal
states under this core's operations.  The sync endpoint overwrites every
reachable job's status with the remote-derived value regardless of the prior
value (so "published" can move back to "scheduled" or "uploaded"), and a
backstop firing likewise sets "published" or "failed" unconditionally over
whatever status was stored. -/
theorem C8_sync_sets_remote_status (now : Int)
    (fetch : String → String → FetchResult) (s : Store) (u : String)
    (hwf : wfStore s) :
    (∀ p ∈ (sync_jobs_with_youtube now fetch s u).2.jobs, p.2.user_id = u →
      ∀ vs, truthy p.2.video_id = true → truthy p.2.channel_id = true →
        fetch (p.2.channel_id.getD "") (p.2.video_id.getD "")
          = FetchResult.found vs →
        p.2.status = some (computeSyncStatus now vs))
    ∧ ∀ (t : Store) (jobId vid : String) (j : Job),
        lookupJob t jobId = some j →
        (lookupJob (publish_video (Except.ok ()) t jobId vid) jobId).map
            Job.status = some (some "published")
        ∧ ∀ msg : String,
          (lookupJob (publish_video (Except.error msg) t jobId vid)
              jobId).map Job.status = some (some "failed") := by
  constructor
  · intro p hp hu vs htv htc hf
    exact sync_post_store now fetch s u hwf p hp hu vs htv htc hf
  · intro t jobId vid j hj
    constructor
    · rw [publish_video, lookupJob_update, if_pos rfl, hj]
      rfl
    · intro msg
      rw [publish_video, lookupJob_update, if_pos rfl, hj]
      rfl

/-- Closed instance of C8_sync_sets_remote_status: after one sync, the job
that was "published" carries the remote-derived status "scheduled"; and a
backstop failure overwrites a "published" job with "failed". -/
theorem C8_sync_sets_remote_status_witness :
    ((⟨"j1", "u", some "c", some "v1", "T", some "scheduled", some 200, 0,
        none, ""⟩ : Job).status
      = some (computeSyncStatus 50 ⟨"v1", "private", some 100, "T", ""⟩))
    ∧ (lookupJob (publish_video (Except.error "boom")
        (Store.mk [("j1", ⟨"j1", "u", some "c", some "v1", "T",
          some "published", some 200, 0, none, ""⟩)]) "j1" "v1") "j1").map
        Job.status = some (some "failed") := by
  have h := C8_sync_sets_remote_status 50
    (fun _ _ => FetchResult.found ⟨"v1", "private", some 100, "T", ""⟩)
    (Store.mk [("j1", ⟨"j1", "u", some "c", some "v1", "T",
      some "published", some 200, 0, none, ""⟩)]) "u"
    (by constructor
        · decide
        · intro p hp
          simp at hp
          rw [hp])
  constructor
  · exact h.1
      ("j1", ⟨"j1", "u", some "c", some "v1", "T", some "scheduled", some 200,
        0, none, ""⟩)
      (by decide) rfl ⟨"v1", "private", some 100, "T", ""⟩
      (by decide) (by decide) rfl
  · exact (h.2 (Store.mk [("j1", ⟨"j1", "u", some "c", some "v1", "T",
      some "published", some 200, 0, none, ""⟩)]) "j1" "v1"
      ⟨"j1", "u", some "c", some "v1", "T", some "published", some 200, 0,
        none, ""⟩ (by decide)).2 "boom"

end LeoAutomation
